import Mathlib

/-
Verification of the ingestion-and-delivery pipeline of ph-brand-daily-sync
(src/main.py) against its natural-language specification.

The embedding is a shallow one: the external collaborators (Telegram client,
Supabase storage, n8n webhook) are modelled as oracles attached to the data
(per-message download/upload outcomes, per-request HTTP outcomes), and the
pure control flow of `main_logic`, `upload_to_supabase_with_retry` and the
dispatcher loop is translated into executable Lean functions.
-/

namespace PhBrandDailySync

/-! ## Python string primitives used by the Channel Target Resolver -/

/-- Character-level worker for `pySplit`: splits on every occurrence of the
separator, keeping empty segments. -/
def splitCharsAux (c : Char) : List Char → List Char → List (List Char)
  | [], acc => [acc.reverse]
  | x :: xs, acc =>
    if x = c then acc.reverse :: splitCharsAux c xs []
    else splitCharsAux c xs (x :: acc)

/-- Python `s.split(sep)` for a single-character separator: splits on every
occurrence, keeps empty segments, and maps the empty string to one empty
segment.  Models `target_channels_env.split(',')` and `item.strip().split(':')`
in src/main.py lines 111 and 115. -/
def pySplit (s : String) (c : Char) : List String :=
  (splitCharsAux c s.data []).map List.asString

/-- Python `s.strip()`: removes leading and trailing whitespace. -/
def pyStrip (s : String) : String :=
  List.asString (((s.data.dropWhile Char.isWhitespace).reverse.dropWhile
    Char.isWhitespace).reverse)

/-- Python dict assignment `d[k] = v` with insertion order preserved: an
existing key keeps its position and gets the new value, a new key is appended
at the end. -/
def dictInsert (d : List (String × String)) (k v : String) :
    List (String × String) :=
  if k ∈ d.map Prod.fst then
    d.map (fun p => if p.1 = k then (k, v) else p)
  else d ++ [(k, v)]

/-- One iteration of the channel-map parsing loop of src/main.py lines
113-121: an item containing a colon is stripped and split on every colon and
contributes an entry only when that split has exactly two parts (an empty
label becoming "Uncategorized"); a bare non-blank item maps to
"Uncategorized"; everything else is dropped. -/
def parseEntry (acc : List (String × String)) (item : String) :
    List (String × String) :=
  if ':' ∈ item.data then
    match pySplit (pyStrip item) ':' with
    | [k, v] =>
      let key := pyStrip k
      let val := pyStrip v
      dictInsert acc key (if val = "" then "Uncategorized" else val)
    | _ => acc
  else if pyStrip item ≠ "" then
    dictInsert acc (pyStrip item) "Uncategorized"
  else acc

/-- The Channel Target Resolver, src/main.py lines 110-121: split the raw
configuration on commas and fold the per-item rule over the entries. -/
def parseChannelMap (s : String) : List (String × String) :=
  (pySplit s ',').foldl parseEntry []

/-! ## Data model of a scraped message and of the run state -/

/-- A message as seen by the iteration loop, together with the oracle outcomes
of its external interactions: `download` is what `m.download_media` would
return for this message (a local path or nothing), and `upload` is the final
outcome of `upload_to_supabase_with_retry` on that file (a public URL and a
storage path, or retry exhaustion). `text` is `message.text or ""`. -/
structure Msg where
  id : Nat
  text : String
  hasMedia : Bool
  isPhoto : Bool
  groupedId : Option Nat
  isAction : Bool
  download : Option String
  upload : Option (String × String)
  date : String
deriving DecidableEq

/-- The JSON payload pushed to n8n, src/main.py lines 299-307. -/
structure Payload where
  source_channel : String
  brand : String
  content : String
  media_urls : List String
  media_type : String
  message_id : String
  date : String
deriving DecidableEq

/-- The storage path recorded for a successful upload of a message's media. -/
def upPath (m : Msg) : String :=
  match m.upload with
  | some (_, p) => p
  | none => ""

/-- The public URL recorded for a successful upload of a message's media. -/
def upUrl (m : Msg) : String :=
  match m.upload with
  | some (u, _) => u
  | none => ""

/-- State of the album-member loop of src/main.py lines 229-267:
`mediaUrls`/`paths` are `media_urls`/`album_uploaded_paths`, `finalText` is
`final_text`, `valid` is `is_payload_valid`, `rollback` records the list of
storage paths handed to `delete_from_supabase` (empty when no rollback
happened; `delete_from_supabase` is a no-op on an empty list), and
`attempted` counts the members on which an upload was attempted. -/
structure AlbumState where
  mediaUrls : List String
  paths : List String
  finalText : String
  valid : Bool
  rollback : List String
  attempted : Nat
deriving DecidableEq

/-- The text-update rule of src/main.py line 266: a strictly longer non-empty
member text replaces the accumulator. -/
def textStep (acc t : String) : String :=
  if t ≠ "" ∧ acc.length < t.length then t else acc

/-- Apply the text-update rule of one member to the album state. -/
def updateText (m : Msg) (s : AlbumState) : AlbumState :=
  { s with finalText := textStep s.finalText m.text }

/-- The album-member loop of src/main.py lines 231-267.  A member with media
is downloaded; a missing local path skips the upload; a successful upload
appends URL and path; a failed upload (retry exhaustion) invalidates the
payload, hands the previously collected paths to the rollback delete and
breaks out of the loop (so neither the failing member's text nor any later
member is looked at). -/
def processMembers : List Msg → AlbumState → AlbumState
  | [], s => s
  | m :: rest, s =>
    if m.hasMedia then
      match m.download with
      | none => processMembers rest (updateText m s)
      | some _ =>
        match m.upload with
        | some (url, rpath) =>
          processMembers rest (updateText m
            { s with
              mediaUrls := s.mediaUrls ++ [url]
              paths := s.paths ++ [rpath]
              attempted := s.attempted + 1 })
        | none =>
          { s with
            valid := false
            rollback := s.paths
            attempted := s.attempted + 1 }
    else
      processMembers rest (updateText m s)

/-- Album state at entry of the member loop: `final_text = message.text or ""`
(src/main.py line 214) and everything else empty/valid. -/
def initAlbum (msg : Msg) : AlbumState :=
  { mediaUrls := []
    paths := []
    finalText := msg.text
    valid := true
    rollback := []
    attempted := 0 }

/-- One configured channel of a run: its name, its brand folder, the dedup
index preloaded for the (channel, brand) pair (src/main.py lines 182-195),
the sibling-window oracle (`client.get_messages(channel, ids=range(id, id+9))`,
line 224; `none` entries model missing ids) and the messages the iterator
yields (line 202). -/
structure ChannelCfg where
  name : String
  brand : String
  dedup : List String
  window : Nat → List (Option Msg)
  messages : List Msg

/-- The Album Reconciler, src/main.py lines 224-226: fetch the id window of
the trigger, keep the members whose group id matches, and fall back to the
singleton `[message]` when the filter yields nothing. -/
def realGroup (ch : ChannelCfg) (msg : Msg) (g : Nat) : List Msg :=
  let r := ((ch.window msg.id).filterMap id).filter
    (fun m => m.groupedId == some g)
  if r.isEmpty then [msg] else r

/-- Build the payload of src/main.py lines 299-307 for a message of the given
channel. -/
def mkPayload (ch : ChannelCfg) (msg : Msg) (mtype content : String)
    (urls : List String) : Payload :=
  { source_channel := ch.name
    brand := ch.brand
    content := content
    media_urls := urls
    media_type := mtype
    message_id := toString msg.id
    date := msg.date }

/-- Mutable state threaded through the whole run: the processed-groups set
(created once, src/main.py line 171) and the accumulated payloads (line 172). -/
structure RunState where
  processedGroups : List Nat
  payloads : List Payload
deriving DecidableEq

/-- Finish the album branch: run the member loop and append the payload only
when it is still valid (src/main.py lines 298-311). -/
def albumAssemble (ch : ChannelCfg) (st : RunState) (msg : Msg)
    (group : List Msg) : RunState :=
  let res := processMembers group (initAlbum msg)
  if res.valid then
    { st with
      payloads := st.payloads ++
        [mkPayload ch msg "album" res.finalText res.mediaUrls] }
  else st

/-- Processing of one iterated message, src/main.py lines 204-311: skip
service actions, skip messages with neither text nor media, skip dedup hits;
the grouped branch consults and extends the processed-groups set and
assembles the reconciled album; the single-media branch uploads the one file
(a missing download path leaves the payload valid with no URLs, a failed
upload discards the payload); the text branch always assembles. -/
def stepMessage (ch : ChannelCfg) (st : RunState) (msg : Msg) : RunState :=
  if msg.isAction = true then st
  else if msg.text = "" ∧ msg.hasMedia = false then st
  else if toString msg.id ∈ ch.dedup then st
  else
    match msg.groupedId with
    | some g =>
      if g ∈ st.processedGroups then st
      else
        albumAssemble ch
          { st with processedGroups := st.processedGroups ++ [g] }
          msg (realGroup ch msg g)
    | none =>
      if msg.hasMedia then
        let mtype := if msg.isPhoto then "photo" else "video"
        match msg.download with
        | none =>
          { st with payloads := st.payloads ++ [mkPayload ch msg mtype msg.text []] }
        | some _ =>
          match msg.upload with
          | some (url, _) =>
            { st with payloads := st.payloads ++ [mkPayload ch msg mtype msg.text [url]] }
          | none => st
      else
        { st with payloads := st.payloads ++ [mkPayload ch msg "text" msg.text []] }

/-- Iterate all messages of one channel, src/main.py line 202. -/
def runChannel (ch : ChannelCfg) (st : RunState) : RunState :=
  ch.messages.foldl (stepMessage ch) st

/-- A whole run over the configured channels, src/main.py lines 171-178: one
processed-groups set and one payload list are threaded through every
channel. -/
def runAll (chs : List ChannelCfg) : RunState :=
  chs.foldl (fun st ch => runChannel ch st) { processedGroups := [], payloads := [] }

/-! ## Media Uploader retry loop -/

/-- The retry loop of `upload_to_supabase_with_retry`, src/main.py lines
65-82, over an oracle giving the outcome of each attempt (a URL/path pair or
an exception): the first successful attempt returns both values, exhaustion
returns `(none, none)`. -/
def uploadRetryAux (attempt : Nat → Option (String × String)) :
    Nat → Nat → Option String × Option String
  | _, 0 => (none, none)
  | k, n + 1 =>
    match attempt k with
    | some (url, path) => (some url, some path)
    | none => uploadRetryAux attempt (k + 1) n

/-- `upload_to_supabase_with_retry` with its default bound `max_retries=3`,
src/main.py line 55. -/
def upload_to_supabase_with_retry (attempt : Nat → Option (String × String))
    (max_retries : Nat := 3) : Option String × Option String :=
  uploadRetryAux attempt 0 max_retries

/-- Number of attempts the retry loop actually makes. -/
def uploadAttempts (attempt : Nat → Option (String × String)) :
    Nat → Nat → Nat
  | _, 0 => 0
  | k, n + 1 =>
    match attempt k with
    | some _ => 1
    | none => 1 + uploadAttempts attempt (k + 1) n

/-! ## Delivery Dispatcher -/

/-- Outcome of one webhook POST: an HTTP status, or a raised network error. -/
inductive PostResult where
  | ok (status : Nat)
  | netError
deriving DecidableEq

/-- One iteration of the push loop of src/main.py lines 327-339: status 200
increments the success counter, any other status and any exception increment
the failure counter. -/
def dispatchStep (c : Nat × Nat) (pr : Payload × PostResult) : Nat × Nat :=
  match pr.2 with
  | PostResult.ok s => if s = 200 then (c.1 + 1, c.2) else (c.1, c.2 + 1)
  | PostResult.netError => (c.1, c.2 + 1)

/-- The Delivery Dispatcher, src/main.py lines 319-339: serially attempt
every payload of the batch (paired with the oracle outcome of its POST) and
accumulate `(success_count, fail_count)`. -/
def dispatch (batch : List (Payload × PostResult)) : Nat × Nat :=
  batch.foldl dispatchStep (0, 0)

/-! ## Instrumentation for the per-group uniqueness invariant -/

/-- The exact condition under which `stepMessage` appends an album payload
for group `g`: the message passes the action/content/dedup guards, carries
`g`, `g` is not yet processed, and the member loop ends valid. -/
def emitsAlbumFor (ch : ChannelCfg) (st : RunState) (msg : Msg) (g : Nat) :
    Prop :=
  msg.isAction = false ∧ ¬(msg.text = "" ∧ msg.hasMedia = false) ∧
  toString msg.id ∉ ch.dedup ∧ msg.groupedId = some g ∧
  g ∉ st.processedGroups ∧
  (processMembers (realGroup ch msg g) (initAlbum msg)).valid = true

instance (ch : ChannelCfg) (st : RunState) (msg : Msg) (g : Nat) :
    Decidable (emitsAlbumFor ch st msg g) := by
  unfold emitsAlbumFor
  exact inferInstance

/-- `stepMessage` paired with a counter of album emissions for group `g`. -/
def stepCount (g : Nat) (ch : ChannelCfg) (q : RunState × Nat) (msg : Msg) :
    RunState × Nat :=
  (stepMessage ch q.1 msg, q.2 + (if emitsAlbumFor ch q.1 msg g then 1 else 0))

/-- `runChannel` paired with the album-emission counter for group `g`. -/
def runChannelCount (g : Nat) (ch : ChannelCfg) (q : RunState × Nat) :
    RunState × Nat :=
  ch.messages.foldl (stepCount g ch) q

/-- A whole run paired with the album-emission counter for group `g`. -/
def runAllCount (g : Nat) (chs : List ChannelCfg) : RunState × Nat :=
  chs.foldl (fun q ch => runChannelCount g ch q)
    ({ processedGroups := [], payloads := [] }, 0)

/-- The spec-side characterisation of "the longest non-empty text, ties
broken by first occurrence": `t` occurs in the list, is non-empty, every text
before that occurrence is strictly shorter and every text after it is no
longer. -/
def IsLongestFirst (ts : List String) (t : String) : Prop :=
  ∃ l₁ l₂, ts = l₁ ++ t :: l₂ ∧ t ≠ "" ∧
    (∀ u ∈ l₁, u.length < t.length) ∧ (∀ u ∈ l₂, u.length ≤ t.length)

/-! ## Concrete sample inputs used by the witness theorems -/

/-- Album member whose media downloads and uploads successfully. -/
def mA1 : Msg :=
  { id := 10, text := "a", hasMedia := true, isPhoto := true,
    groupedId := some 5, isAction := false, download := some "fa",
    upload := some ("ua", "pa"), date := "da" }

/-- Album sibling whose upload exhausts its retries. -/
def mA2 : Msg :=
  { id := 11, text := "", hasMedia := true, isPhoto := false,
    groupedId := some 5, isAction := false, download := some "fb",
    upload := none, date := "db" }

/-- Channel whose album upload fails on the second member. -/
def chA : ChannelCfg :=
  { name := "chanA", brand := "BrandA", dedup := [],
    window := fun _ => [some mA1, some mA2], messages := [mA1, mA2] }

/-- Single-media message whose upload exhausts its retries. -/
def msgU : Msg :=
  { id := 31, text := "pic", hasMedia := true, isPhoto := true,
    groupedId := none, isAction := false, download := some "f31",
    upload := none, date := "d31" }

/-- Channel carrying only the failing single-media message. -/
def chU : ChannelCfg :=
  { name := "chanU", brand := "BrandU", dedup := [],
    window := fun _ => [], messages := [msgU] }

/-- Text-only message whose id is in the dedup index. -/
def mE1 : Msg :=
  { id := 1, text := "hello", hasMedia := false, isPhoto := false,
    groupedId := none, isAction := false, download := none,
    upload := none, date := "d1" }

/-- Text-only message not in the dedup index. -/
def mE2 : Msg :=
  { id := 2, text := "world", hasMedia := false, isPhoto := false,
    groupedId := none, isAction := false, download := none,
    upload := none, date := "d2" }

/-- Channel whose dedup index holds message id "1". -/
def chE : ChannelCfg :=
  { name := "chanE", brand := "BrandE", dedup := ["1"],
    window := fun _ => [], messages := [mE1, mE2] }

/-- Album trigger with a short caption. -/
def mT1 : Msg :=
  { id := 41, text := "ab", hasMedia := false, isPhoto := false,
    groupedId := some 6, isAction := false, download := none,
    upload := none, date := "d41" }

/-- Album member carrying the longest caption. -/
def mT2 : Msg :=
  { id := 42, text := "abcd", hasMedia := false, isPhoto := false,
    groupedId := some 6, isAction := false, download := none,
    upload := none, date := "d42" }

/-- Later album member with a shorter caption. -/
def mT3 : Msg :=
  { id := 43, text := "xyz", hasMedia := false, isPhoto := false,
    groupedId := some 6, isAction := false, download := none,
    upload := none, date := "d43" }

/-- Grouped message whose sibling window yields nothing. -/
def mS : Msg :=
  { id := 51, text := "solo", hasMedia := false, isPhoto := false,
    groupedId := some 4, isAction := false, download := none,
    upload := none, date := "d51" }

/-- Channel whose sibling window is empty. -/
def chS : ChannelCfg :=
  { name := "chanS", brand := "BrandS", dedup := [],
    window := fun _ => [], messages := [mS] }

/-- Album member whose download yields no local path. -/
def mD1 : Msg :=
  { id := 21, text := "cap", hasMedia := true, isPhoto := true,
    groupedId := some 9, isAction := false, download := none,
    upload := none, date := "d21" }

/-- Album sibling that downloads and uploads successfully. -/
def mD2 : Msg :=
  { id := 22, text := "", hasMedia := true, isPhoto := true,
    groupedId := some 9, isAction := false, download := some "f22",
    upload := some ("u22", "p22"), date := "d22" }

/-- Channel whose album has one failed download and one good upload. -/
def chD : ChannelCfg :=
  { name := "chanD", brand := "BrandD", dedup := [],
    window := fun _ => [some mD1, some mD2], messages := [mD1, mD2] }

/-- Grouped message of the first channel of the shared-set scenario. -/
def mG1 : Msg :=
  { id := 61, text := "g1", hasMedia := false, isPhoto := false,
    groupedId := some 7, isAction := false, download := none,
    upload := none, date := "d61" }

/-- First channel of the shared-set scenario. -/
def chG1 : ChannelCfg :=
  { name := "chanG1", brand := "BrandG1", dedup := [],
    window := fun _ => [], messages := [mG1] }

/-- Message of a later channel carrying the group id already processed. -/
def mG2 : Msg :=
  { id := 62, text := "g2", hasMedia := false, isPhoto := false,
    groupedId := some 7, isAction := false, download := none,
    upload := none, date := "d62" }

/-- Later channel of the shared-set scenario. -/
def chG2 : ChannelCfg :=
  { name := "chanG2", brand := "BrandG2", dedup := [],
    window := fun _ => [], messages := [mG2] }

/-! ## Helper lemmas -/

lemma dictInsert_labels {d : List (String × String)} {k v : String}
    (hv : v ≠ "") (hd : ∀ p ∈ d, p.2 ≠ "") :
    ∀ p ∈ dictInsert d k v, p.2 ≠ "" := by
  intro p hp
  unfold dictInsert at hp
  split at hp
  · obtain ⟨q, hq, hpq⟩ := List.mem_map.mp hp
    by_cases h : q.1 = k
    · rw [if_pos h] at hpq
      rw [← hpq]
      exact hv
    · rw [if_neg h] at hpq
      rw [← hpq]
      exact hd q hq
  · rcases List.mem_append.mp hp with h | h
    · exact hd p h
    · rw [List.mem_singleton.mp h]
      exact hv

lemma parseEntry_labels {acc : List (String × String)} {item : String}
    (hd : ∀ p ∈ acc, p.2 ≠ "") :
    ∀ p ∈ parseEntry acc item, p.2 ≠ "" := by
  intro p hp
  unfold parseEntry at hp
  split at hp
  · split at hp
    · refine dictInsert_labels ?_ hd p hp
      split
      · decide
      · assumption
    · exact hd p hp
  · split at hp
    · exact dictInsert_labels (by decide) hd p hp
    · exact hd p hp

lemma parseFold_labels :
    ∀ (items : List String) (acc : List (String × String)),
      (∀ p ∈ acc, p.2 ≠ "") →
      ∀ p ∈ items.foldl parseEntry acc, p.2 ≠ "" := by
  intro items
  induction items with
  | nil => intro acc h p hp; exact h p hp
  | cons it rest ih =>
    intro acc h p hp
    exact ih (parseEntry acc it) (parseEntry_labels h) p hp

lemma uploadAttempts_le (attempt : Nat → Option (String × String)) :
    ∀ (n k : Nat), uploadAttempts attempt k n ≤ n := by
  intro n
  induction n with
  | zero => intro k; simp [uploadAttempts]
  | succ m ih =>
    intro k
    unfold uploadAttempts
    split
    · omega
    · have := ih (k + 1)
      omega

lemma dispatch_fold_sum :
    ∀ (batch : List (Payload × PostResult)) (a b : Nat),
      (batch.foldl dispatchStep (a, b)).1 + (batch.foldl dispatchStep (a, b)).2 =
        a + b + batch.length := by
  intro batch
  induction batch with
  | nil => intro a b; simp
  | cons pr rest ih =>
    intro a b
    have hstep : dispatchStep (a, b) pr = (a + 1, b) ∨
        dispatchStep (a, b) pr = (a, b + 1) := by
      unfold dispatchStep
      rcases pr.2 with s | _
      · dsimp only
        split
        · exact Or.inl rfl
        · exact Or.inr rfl
      · exact Or.inr rfl
    rcases hstep with h | h <;>
      simp only [List.foldl_cons, h, ih, List.length_cons] <;> omega

lemma dispatch_fold_success :
    ∀ (batch : List (Payload × PostResult)) (a b : Nat),
      (batch.foldl dispatchStep (a, b)).1 =
        a + (batch.filter (fun pr => decide (pr.2 = PostResult.ok 200))).length := by
  intro batch
  induction batch with
  | nil => intro a b; simp
  | cons pr rest ih =>
    intro a b
    by_cases h : pr.2 = PostResult.ok 200
    · have hstep : dispatchStep (a, b) pr = (a + 1, b) := by
        simp [dispatchStep, h]
      simp only [List.foldl_cons, hstep, ih, List.filter_cons, h]
      simp
      omega
    · have hstep : dispatchStep (a, b) pr = (a, b + 1) := by
        unfold dispatchStep
        rcases hpr : pr.2 with s | _
        · dsimp only
          rw [if_neg (by rw [hpr] at h; intro hs; exact h (by rw [hs]))]
        · rfl
      simp only [List.foldl_cons, hstep, ih, List.filter_cons]
      rw [if_neg (by simpa using h)]

/-! ## Claim theorems -/

/-- C2, counterexample: the configuration "a:b:c" contains one entry whose
colon-split yields three parts; the claim says such an entry is mapped to the
sentinel category, but the Resolver drops it and produces an empty mapping. -/
theorem c2_resolver_counterexample : parseChannelMap "a:b:c" = [] := by decide

/-- C2 (amended): every entry actually present in the produced mapping has a
non-empty label (bare entries and entries with an empty label resolving to
"Uncategorized"), but an entry whose colon-split produces more than two parts
is silently dropped rather than mapped to the sentinel category. -/
theorem c2_resolver_labels_nonempty :
    (∀ (s : String) (p : String × String), p ∈ parseChannelMap s → p.2 ≠ "") ∧
    parseChannelMap "100:BrandA,200" =
      [("100", "BrandA"), ("200", "Uncategorized")] := by
  constructor
  · intro s p hp
    exact parseFold_labels (pySplit s ',') [] (by simp) p hp
  · decide

/-- C2, witness: the amended theorem applied to the configuration
"100:BrandA,200" and its entry ("200", "Uncategorized"). -/
theorem c2_resolver_labels_nonempty_witness :
    (("200", "Uncategorized") : String × String).2 ≠ "" :=
  c2_resolver_labels_nonempty.1 "100:BrandA,200" ("200", "Uncategorized")
    (by decide)

/-- C3, counterexample: a delivery whose POST returns status 204 — a 2xx
response — is counted as a failure, not a success, because the dispatcher
tests for status 200 exactly. -/
theorem c3_dispatch_counterexample :
    dispatch [({ source_channel := "c", brand := "b", content := "t",
                 media_urls := [], media_type := "text", message_id := "1",
                 date := "d" }, PostResult.ok 204)] = (0, 1) ∧
    200 ≤ 204 ∧ 204 < 300 := by
  constructor
  · decide
  · omega

/-- C3 (amended): the dispatcher attempts every record of the batch —
success and failure counts always sum to the batch length — and counts a
response as a success exactly when its status is 200; every other status
(including other 2xx codes) and every network error counts as a failure. -/
theorem c3_dispatch_totals :
    ∀ (batch : List (Payload × PostResult)),
      (dispatch batch).1 + (dispatch batch).2 = batch.length ∧
      (dispatch batch).1 =
        (batch.filter (fun pr => decide (pr.2 = PostResult.ok 200))).length := by
  intro batch
  constructor
  · have := dispatch_fold_sum batch 0 0
    unfold dispatch
    omega
  · have := dispatch_fold_success batch 0 0
    unfold dispatch
    omega

lemma uploadRetryAux_none (attempt : Nat → Option (String × String)) :
    ∀ (n k : Nat), (∀ i, i < n → attempt (k + i) = none) →
      uploadRetryAux attempt k n = (none, none) := by
  intro n
  induction n with
  | zero => intro k _; rfl
  | succ m ih =>
    intro k h
    unfold uploadRetryAux
    rw [show attempt k = none from by simpa using h 0 (by omega)]
    exact ih (k + 1) (fun i hi => by
      have := h (i + 1) (by omega)
      rwa [show k + (i + 1) = k + 1 + i by omega] at this)

/-- C6: the Media Uploader makes at most the fixed bound of 3 attempts; when
every attempt fails it returns `(none, none)`; and the caller treats that
pair as a hard failure for the current item — a single-media message whose
upload is exhausted leaves the run state unchanged, producing no payload. -/
theorem c6_upload_retry_exhaustion :
    (∀ attempt : Nat → Option (String × String),
      uploadAttempts attempt 0 3 ≤ 3) ∧
    (∀ attempt : Nat → Option (String × String),
      (∀ i, i < 3 → attempt i = none) →
      upload_to_supabase_with_retry attempt = (none, none)) ∧
    (∀ (ch : ChannelCfg) (st : RunState) (msg : Msg),
      msg.groupedId = none → msg.hasMedia = true →
      msg.download.isSome = true → msg.upload = none →
      stepMessage ch st msg = st) := by
  refine ⟨?_, ?_, ?_⟩
  · intro attempt
    exact uploadAttempts_le attempt 3 0
  · intro attempt h
    exact uploadRetryAux_none attempt 3 0 (fun i hi => by simpa using h i hi)
  · intro ch st msg hg hm hd hu
    obtain ⟨dp, hdp⟩ := Option.isSome_iff_exists.mp hd
    unfold stepMessage
    split
    · rfl
    · split
      · rfl
      · split
        · rfl
        · simp [hg, hm, hdp, hu]

/-- C6, witness: the theorem applied to an oracle that always fails and to
the concrete failing single-media message `msgU`. -/
theorem c6_upload_retry_exhaustion_witness :
    uploadAttempts (fun _ => none) 0 3 ≤ 3 ∧
    upload_to_supabase_with_retry (fun _ => none) = (none, none) ∧
    stepMessage chU { processedGroups := [], payloads := [] } msgU =
      { processedGroups := [], payloads := [] } :=
  ⟨c6_upload_retry_exhaustion.1 (fun _ => none),
   c6_upload_retry_exhaustion.2.1 (fun _ => none) (fun _ _ => rfl),
   c6_upload_retry_exhaustion.2.2 chU { processedGroups := [], payloads := [] }
     msgU rfl rfl rfl rfl⟩

/-- C8: when the filtered sibling window of a grouped message is empty, the
Album Reconciler falls back to the singleton album `[message]`, and the
grouped branch proceeds by assembling exactly that singleton. -/
theorem c8_singleton_fallback (ch : ChannelCfg) (st : RunState) (msg : Msg)
    (g : Nat)
    (h1 : msg.isAction = false)
    (h2 : ¬(msg.text = "" ∧ msg.hasMedia = false))
    (h3 : toString msg.id ∉ ch.dedup)
    (hg : msg.groupedId = some g)
    (h5 : g ∉ st.processedGroups)
    (hempty : ((ch.window msg.id).filterMap id).filter
      (fun m => m.groupedId == some g) = []) :
    realGroup ch msg g = [msg] ∧
    stepMessage ch st msg =
      albumAssemble ch { st with processedGroups := st.processedGroups ++ [g] }
        msg [msg] := by
  have hrg : realGroup ch msg g = [msg] := by
    unfold realGroup
    rw [hempty]
    rfl
  refine ⟨hrg, ?_⟩
  unfold stepMessage
  rw [if_neg (by rw [h1]; exact Bool.false_ne_true), if_neg h2, if_neg h3]
  simp only [hg]
  rw [if_neg h5, hrg]

/-- C8, witness: the theorem applied to the concrete grouped message `mS`
whose sibling window is empty. -/
theorem c8_singleton_fallback_witness :
    realGroup chS mS 4 = [mS] ∧
    stepMessage chS { processedGroups := [], payloads := [] } mS =
      albumAssemble chS { processedGroups := [4], payloads := [] } mS [mS] :=
  c8_singleton_fallback chS { processedGroups := [], payloads := [] } mS 4
    rfl (by decide) (by decide) rfl (by decide) (by decide)

/-- C9: an album member with media whose download returns no local path is
skipped — the loop moves on with only the text rule applied, no upload
attempt, no URL, no storage path and no invalidation — hence a valid album
record can be emitted whose `media_urls` has fewer entries than the album
has media members, as the concrete channel `chD` shows: two media members,
one payload URL. -/
theorem c9_download_miss_skipped :
    (∀ (m : Msg) (rest : List Msg) (s : AlbumState),
      m.hasMedia = true → m.download = none →
      processMembers (m :: rest) s = processMembers rest (updateText m s) ∧
      (updateText m s).mediaUrls = s.mediaUrls ∧
      (updateText m s).paths = s.paths ∧
      (updateText m s).valid = s.valid ∧
      (updateText m s).attempted = s.attempted) ∧
    ((stepMessage chD { processedGroups := [], payloads := [] } mD1).payloads =
      [mkPayload chD mD1 "album" "cap" ["u22"]] ∧
    ([mD1, mD2].filter (fun m => m.hasMedia)).length = 2) := by
  refine ⟨?_, by decide, by decide⟩
  intro m rest s hm hd
  refine ⟨?_, rfl, rfl, rfl, rfl⟩
  show (if m.hasMedia = true then _ else _) = _
  rw [if_pos hm, hd]

/-- C9, witness: the skip rule applied to the concrete member `mD1` whose
download fails. -/
theorem c9_download_miss_skipped_witness :
    processMembers [mD1] (initAlbum mD1) =
      processMembers [] (updateText mD1 (initAlbum mD1)) ∧
    (updateText mD1 (initAlbum mD1)).mediaUrls = (initAlbum mD1).mediaUrls ∧
    (updateText mD1 (initAlbum mD1)).paths = (initAlbum mD1).paths ∧
    (updateText mD1 (initAlbum mD1)).valid = (initAlbum mD1).valid ∧
    (updateText mD1 (initAlbum mD1)).attempted = (initAlbum mD1).attempted :=
  c9_download_miss_skipped.1 mD1 [] (initAlbum mD1) rfl rfl

lemma processMembers_cons_nomedia (m : Msg) (rest : List Msg) (s : AlbumState)
    (hm : m.hasMedia = false) :
    processMembers (m :: rest) s = processMembers rest (updateText m s) := by
  simp [processMembers, hm]

lemma processMembers_cons_nodl (m : Msg) (rest : List Msg) (s : AlbumState)
    (hm : m.hasMedia = true) (hd : m.download = none) :
    processMembers (m :: rest) s = processMembers rest (updateText m s) := by
  simp [processMembers, hm, hd]

lemma processMembers_cons_ok (m : Msg) (rest : List Msg) (s : AlbumState)
    (dp u p : String) (hm : m.hasMedia = true) (hd : m.download = some dp)
    (hu : m.upload = some (u, p)) :
    processMembers (m :: rest) s =
      processMembers rest (updateText m
        { s with
          mediaUrls := s.mediaUrls ++ [u]
          paths := s.paths ++ [p]
          attempted := s.attempted + 1 }) := by
  simp [processMembers, hm, hd, hu]

lemma processMembers_cons_fail (m : Msg) (rest : List Msg) (s : AlbumState)
    (dp : String) (hm : m.hasMedia = true) (hd : m.download = some dp)
    (hu : m.upload = none) :
    processMembers (m :: rest) s =
      { s with
        valid := false
        rollback := s.paths
        attempted := s.attempted + 1 } := by
  simp [processMembers, hm, hd, hu]

/-- Full characterisation of the album-member loop when every media member of
`pre` downloads and uploads successfully and the upload of `mf` fails: the
loop breaks at `mf` with the payload invalidated, exactly the storage paths
of `pre`'s media members handed to the rollback, one upload attempt per
`pre`-media member plus the failing one, and the text rule applied to `pre`
only. -/
lemma processMembers_fail (mf : Msg) (post : List Msg)
    (hmf : mf.hasMedia = true) (hdn : mf.download.isSome = true)
    (hup : mf.upload = none) :
    ∀ (pre : List Msg) (s : AlbumState),
      (∀ m ∈ pre, m.hasMedia = true →
        m.download.isSome = true ∧ m.upload.isSome = true) →
      processMembers (pre ++ mf :: post) s =
        { mediaUrls := s.mediaUrls ++ (pre.filter (fun m => m.hasMedia)).map upUrl
          paths := s.paths ++ (pre.filter (fun m => m.hasMedia)).map upPath
          finalText := pre.foldl (fun acc m => textStep acc m.text) s.finalText
          valid := false
          rollback := s.paths ++ (pre.filter (fun m => m.hasMedia)).map upPath
          attempted := s.attempted + ((pre.filter (fun m => m.hasMedia)).length + 1) } := by
  intro pre
  induction pre with
  | nil =>
    intro s _
    obtain ⟨dp, hdp⟩ := Option.isSome_iff_exists.mp hdn
    rw [List.nil_append, processMembers_cons_fail mf post s dp hmf hdp hup]
    simp
  | cons m pre ih =>
    intro s hpre
    have hrest : ∀ x ∈ pre, x.hasMedia = true →
        x.download.isSome = true ∧ x.upload.isSome = true :=
      fun x hx => hpre x (List.mem_cons_of_mem m hx)
    by_cases hm : m.hasMedia = true
    · obtain ⟨hdm, hum⟩ := hpre m (List.mem_cons_self m pre) hm
      obtain ⟨dm, hdm'⟩ := Option.isSome_iff_exists.mp hdm
      obtain ⟨⟨u, p⟩, hum'⟩ := Option.isSome_iff_exists.mp hum
      rw [List.cons_append, processMembers_cons_ok m _ s dm u p hm hdm' hum',
        ih _ hrest]
      simp [updateText, List.filter_cons, hm, upUrl, upPath, hum']
      all_goals omega
    · have hm' : m.hasMedia = false := by
        revert hm; cases m.hasMedia <;> simp
      rw [List.cons_append, processMembers_cons_nomedia m _ s hm', ih _ hrest]
      simp [updateText, List.filter_cons, hm']

/-- C1: in the album branch, when every media member before `mf` uploads
successfully and `mf`'s upload exhausts its retries, the run step produces no
payload for the group (while still marking the group processed), the member
loop ends invalid, exactly the storage paths of the k-1 previously
successful sibling uploads are handed to the rollback delete (in order, with
as many URLs collected), and exactly k upload attempts were made — none for
the members after `mf`. -/
theorem c1_album_failure_rollback (ch : ChannelCfg) (st : RunState)
    (msg mf : Msg) (g : Nat) (pre post : List Msg)
    (h1 : msg.isAction = false)
    (h2 : ¬(msg.text = "" ∧ msg.hasMedia = false))
    (h3 : toString msg.id ∉ ch.dedup)
    (hg : msg.groupedId = some g)
    (h5 : g ∉ st.processedGroups)
    (hgrp : realGroup ch msg g = pre ++ mf :: post)
    (hpre : ∀ m ∈ pre, m.hasMedia = true →
      m.download.isSome = true ∧ m.upload.isSome = true)
    (hmf : mf.hasMedia = true) (hdn : mf.download.isSome = true)
    (hup : mf.upload = none) :
    (stepMessage ch st msg).payloads = st.payloads ∧
    g ∈ (stepMessage ch st msg).processedGroups ∧
    (processMembers (realGroup ch msg g) (initAlbum msg)).valid = false ∧
    (processMembers (realGroup ch msg g) (initAlbum msg)).rollback =
      (pre.filter (fun m => m.hasMedia)).map upPath ∧
    (processMembers (realGroup ch msg g) (initAlbum msg)).mediaUrls.length =
      (pre.filter (fun m => m.hasMedia)).length ∧
    (processMembers (realGroup ch msg g) (initAlbum msg)).attempted =
      (pre.filter (fun m => m.hasMedia)).length + 1 := by
  have hres := processMembers_fail mf post hmf hdn hup pre (initAlbum msg) hpre
  have hstep : stepMessage ch st msg =
      { st with processedGroups := st.processedGroups ++ [g] } := by
    unfold stepMessage
    rw [if_neg (by rw [h1]; exact Bool.false_ne_true), if_neg h2, if_neg h3]
    simp only [hg]
    rw [if_neg h5]
    unfold albumAssemble
    rw [hgrp, hres]
    simp
  rw [hgrp, hstep, hres]
  refine ⟨rfl, List.mem_append_right _ (List.mem_singleton.mpr rfl), rfl, ?_, ?_, ?_⟩
  · simp [initAlbum]
  · simp [initAlbum]
  · simp [initAlbum]

/-- C1, witness: the theorem applied to the concrete channel `chA`, whose
two-member album fails on the second upload after the first succeeded. -/
theorem c1_album_failure_rollback_witness :
    (stepMessage chA { processedGroups := [], payloads := [] } mA1).payloads =
      ({ processedGroups := [], payloads := [] } : RunState).payloads ∧
    5 ∈ (stepMessage chA { processedGroups := [], payloads := [] } mA1).processedGroups ∧
    (processMembers (realGroup chA mA1 5) (initAlbum mA1)).valid = false ∧
    (processMembers (realGroup chA mA1 5) (initAlbum mA1)).rollback =
      ([mA1].filter (fun m => m.hasMedia)).map upPath ∧
    (processMembers (realGroup chA mA1 5) (initAlbum mA1)).mediaUrls.length =
      ([mA1].filter (fun m => m.hasMedia)).length ∧
    (processMembers (realGroup chA mA1 5) (initAlbum mA1)).attempted =
      ([mA1].filter (fun m => m.hasMedia)).length + 1 :=
  c1_album_failure_rollback chA { processedGroups := [], payloads := [] }
    mA1 mA2 5 [mA1] [] rfl (by decide) (by decide) rfl (by decide) (by decide)
    (by decide) rfl rfl rfl

lemma str_length_pos {t : String} (h : t ≠ "") : 0 < t.length := by
  cases t with
  | mk l =>
    cases l with
    | nil => exact absurd rfl h
    | cons c cs => simp [String.length]

lemma textStep_same (a : String) : textStep a a = a := by
  unfold textStep
  rw [if_neg]
  rintro ⟨-, h⟩
  exact lt_irrefl _ h

lemma textStep_empty (t : String) : textStep "" t = t := by
  by_cases h : t = ""
  · subst h; rfl
  · unfold textStep
    rw [if_pos ⟨h, str_length_pos h⟩]

lemma fold_textStep_lt (t : String) :
    ∀ (l : List String) (acc : String),
      (∀ u ∈ l, u.length < t.length) → acc.length < t.length →
      (l.foldl textStep acc).length < t.length := by
  intro l
  induction l with
  | nil => intro acc _ hacc; exact hacc
  | cons u l ih =>
    intro acc h hacc
    simp only [List.foldl_cons]
    refine ih _ (fun v hv => h v (List.mem_cons_of_mem u hv)) ?_
    unfold textStep
    split
    · exact h u (List.mem_cons_self u l)
    · exact hacc

lemma fold_textStep_le (t : String) :
    ∀ (l : List String), (∀ u ∈ l, u.length ≤ t.length) →
      l.foldl textStep t = t := by
  intro l
  induction l with
  | nil => intro _; rfl
  | cons u l ih =>
    intro h
    simp only [List.foldl_cons]
    have hstep : textStep t u = t := by
      unfold textStep
      rw [if_neg]
      rintro ⟨-, hlt⟩
      exact absurd (h u (List.mem_cons_self u l)) (by omega)
    rw [hstep]
    exact ih (fun v hv => h v (List.mem_cons_of_mem u hv))

lemma fold_textStep_longest (ts : List String) (t : String)
    (h : IsLongestFirst ts t) : ts.foldl textStep "" = t := by
  obtain ⟨l₁, l₂, rfl, hne, hlt, hle⟩ := h
  rw [List.foldl_append]
  simp only [List.foldl_cons]
  have hacc : (l₁.foldl textStep "").length < t.length :=
    fold_textStep_lt t l₁ "" hlt (str_length_pos hne)
  have hat : textStep (l₁.foldl textStep "") t = t := by
    unfold textStep
    rw [if_pos ⟨hne, hacc⟩]
  rw [hat]
  exact fold_textStep_le t l₂ hle

/-- When the album-member loop finishes valid (no upload break), its final
text is exactly the fold of the text-update rule over all members. -/
lemma processMembers_valid_finalText :
    ∀ (ms : List Msg) (s : AlbumState),
      (processMembers ms s).valid = true →
      (processMembers ms s).finalText =
        ms.foldl (fun acc m => textStep acc m.text) s.finalText := by
  intro ms
  induction ms with
  | nil => intro s _; rfl
  | cons m rest ih =>
    intro s hv
    by_cases hm : m.hasMedia = true
    · rcases hd : m.download with _ | dp
      · rw [processMembers_cons_nodl m rest s hm hd] at hv ⊢
        rw [ih _ hv]
        simp [updateText]
      · rcases hu : m.upload with _ | ⟨u, p⟩
        · rw [processMembers_cons_fail m rest s dp hm hd hu] at hv
          simp at hv
        · rw [processMembers_cons_ok m rest s dp u p hm hd hu] at hv ⊢
          rw [ih _ hv]
          simp [updateText]
    · have hm' : m.hasMedia = false := by
        revert hm; cases m.hasMedia <;> simp
      rw [processMembers_cons_nomedia m rest s hm'] at hv ⊢
      rw [ih _ hv]
      simp [updateText]

/-- C7: a valid (assembled) album record's text is the longest non-empty
text across all album members, ties broken in favour of the first
occurrence; accordingly the emitted payload carries exactly that content. -/
theorem c7_album_longest_text (msg : Msg) (rest : List Msg) (t : String)
    (hvalid : (processMembers (msg :: rest) (initAlbum msg)).valid = true)
    (ht : IsLongestFirst ((msg :: rest).map (fun m => m.text)) t) :
    (processMembers (msg :: rest) (initAlbum msg)).finalText = t ∧
    ∀ (ch : ChannelCfg) (st : RunState),
      (albumAssemble ch st msg (msg :: rest)).payloads =
        st.payloads ++ [mkPayload ch msg "album" t
          (processMembers (msg :: rest) (initAlbum msg)).mediaUrls] := by
  have hft : (processMembers (msg :: rest) (initAlbum msg)).finalText = t := by
    rw [processMembers_valid_finalText _ _ hvalid]
    have h1 := List.foldl_map (fun (m : Msg) => m.text) textStep (msg :: rest)
      msg.text
    have h2 : ((msg :: rest).map (fun m => m.text)).foldl textStep msg.text =
        ((msg :: rest).map (fun m => m.text)).foldl textStep "" := by
      simp only [List.map_cons, List.foldl_cons]
      rw [textStep_empty, textStep_same]
    calc (msg :: rest).foldl (fun acc m => textStep acc m.text)
          (initAlbum msg).finalText
        = ((msg :: rest).map (fun m => m.text)).foldl textStep msg.text :=
          h1.symm
      _ = ((msg :: rest).map (fun m => m.text)).foldl textStep "" := h2
      _ = t := fold_textStep_longest _ t ht
  refine ⟨hft, ?_⟩
  intro ch st
  simp only [albumAssemble]
  rw [if_pos hvalid, hft]

/-- C7, witness: the theorem applied to the concrete three-member album in
which the longest caption "abcd" lives on the second member. -/
theorem c7_album_longest_text_witness :
    (processMembers [mT1, mT2, mT3] (initAlbum mT1)).finalText = "abcd" :=
  (c7_album_longest_text mT1 [mT2, mT3] "abcd" (by decide)
    ⟨["ab"], ["xyz"], by decide, by decide, by decide, by decide⟩).1

/-- Any payload present after one message step was either already there, or
was produced for this very message — carrying `toString msg.id` as its
`message_id` — after the dedup guard let the message through. -/
lemma stepMessage_payload_mem (ch : ChannelCfg) (st : RunState) (msg : Msg) :
    ∀ p ∈ (stepMessage ch st msg).payloads,
      p ∈ st.payloads ∨
      (p.message_id = toString msg.id ∧ toString msg.id ∉ ch.dedup) := by
  intro p hp
  simp only [stepMessage, albumAssemble] at hp
  split at hp
  · exact Or.inl hp
  split at hp
  · exact Or.inl hp
  split at hp
  · exact Or.inl hp
  next hded =>
  split at hp
  · split at hp
    · exact Or.inl hp
    · split at hp
      · rcases List.mem_append.mp hp with h | h
        · exact Or.inl h
        · right
          rw [List.mem_singleton.mp h]
          exact ⟨rfl, hded⟩
      · exact Or.inl hp
  · split at hp
    · split at hp
      · rcases List.mem_append.mp hp with h | h
        · exact Or.inl h
        · right
          rw [List.mem_singleton.mp h]
          exact ⟨rfl, hded⟩
      · split at hp
        · rcases List.mem_append.mp hp with h | h
          · exact Or.inl h
          · right
            rw [List.mem_singleton.mp h]
            exact ⟨rfl, hded⟩
        · exact Or.inl hp
    · rcases List.mem_append.mp hp with h | h
      · exact Or.inl h
      · right
        rw [List.mem_singleton.mp h]
        exact ⟨rfl, hded⟩

lemma runChannel_payload_mem (ch : ChannelCfg) :
    ∀ (msgs : List Msg) (st : RunState) (p : Payload),
      p ∈ (msgs.foldl (stepMessage ch) st).payloads →
      p ∈ st.payloads ∨ p.message_id ∉ ch.dedup := by
  intro msgs
  induction msgs with
  | nil => intro st p hp; exact Or.inl hp
  | cons m rest ih =>
    intro st p hp
    rcases ih (stepMessage ch st m) p hp with h | h
    · rcases stepMessage_payload_mem ch st m p h with h' | ⟨heq, hnot⟩
      · exact Or.inl h'
      · right; rw [heq]; exact hnot
    · exact Or.inr h

/-- C5: a message whose id string is in the channel's loaded DedupIndex is
skipped outright — the step leaves the run state untouched — and hence no
payload carrying that id is ever produced while processing the channel. -/
theorem c5_dedup_no_record (ch : ChannelCfg) (st : RunState) (mid : String)
    (hmid : mid ∈ ch.dedup) :
    (∀ (st' : RunState) (msg : Msg), toString msg.id = mid →
      stepMessage ch st' msg = st') ∧
    ∀ p ∈ (runChannel ch st).payloads,
      p ∈ st.payloads ∨ p.message_id ≠ mid := by
  constructor
  · intro st' msg hid
    unfold stepMessage
    split
    · rfl
    · split
      · rfl
      · rw [if_pos (by rw [hid]; exact hmid)]
  · intro p hp
    rcases runChannel_payload_mem ch ch.messages st p hp with h | h
    · exact Or.inl h
    · exact Or.inr (fun hc => h (by rw [hc]; exact hmid))

/-- C5, witness: the theorem applied to the concrete channel `chE`, whose
dedup index holds id "1": the only payload produced is the one for id "2". -/
theorem c5_dedup_no_record_witness :
    mkPayload chE mE2 "text" "world" [] ∈
      ({ processedGroups := [], payloads := [] } : RunState).payloads ∨
    (mkPayload chE mE2 "text" "world" []).message_id ≠ "1" :=
  (c5_dedup_no_record chE { processedGroups := [], payloads := [] } "1"
    (by decide)).2 (mkPayload chE mE2 "text" "world" []) (by decide)

lemma albumAssemble_pg (ch : ChannelCfg) (st : RunState) (msg : Msg)
    (grp : List Msg) :
    (albumAssemble ch st msg grp).processedGroups = st.processedGroups := by
  simp only [albumAssemble]
  split <;> rfl

lemma stepMessage_pg_mono (ch : ChannelCfg) (st : RunState) (msg : Msg)
    (g : Nat) (h : g ∈ st.processedGroups) :
    g ∈ (stepMessage ch st msg).processedGroups := by
  simp only [stepMessage, albumAssemble]
  repeat' split
  all_goals first
  | exact h
  | exact List.mem_append_left _ h

/-- A message carrying a group id that is already in the processed-groups
set is skipped outright: the step is a no-op on the whole run state. -/
lemma stepMessage_skip_processed (ch : ChannelCfg) (st : RunState) (msg : Msg)
    (g : Nat) (hg : msg.groupedId = some g) (h : g ∈ st.processedGroups) :
    stepMessage ch st msg = st := by
  unfold stepMessage
  split
  · rfl
  split
  · rfl
  split
  · rfl
  simp only [hg]
  rw [if_pos h]

lemma stepMessage_pg_of_emits (ch : ChannelCfg) (st : RunState) (msg : Msg)
    (g : Nat) (h : emitsAlbumFor ch st msg g) :
    g ∈ (stepMessage ch st msg).processedGroups := by
  obtain ⟨h1, h2, h3, h4, h5, -⟩ := h
  unfold stepMessage
  rw [if_neg (by rw [h1]; exact Bool.false_ne_true), if_neg h2, if_neg h3]
  simp only [h4]
  rw [if_neg h5, albumAssemble_pg]
  exact List.mem_append_right _ (List.mem_singleton.mpr rfl)

/-- Generic first-component law for folds over a (state, counter) pair whose
step updates the state independently of the counter. -/
lemma pairFold_fst {α : Type} (F : RunState × Nat → α → RunState × Nat)
    (G : RunState → α → RunState) (hF : ∀ q a, (F q a).1 = G q.1 a) :
    ∀ (l : List α) (q : RunState × Nat),
      (l.foldl F q).1 = l.foldl G q.1 := by
  intro l
  induction l with
  | nil => intro q; rfl
  | cons a l ih =>
    intro q
    simp only [List.foldl_cons]
    rw [ih, hF]

/-- Generic counter law: when the step's state part ignores the counter and
its counter part adds a state-determined increment, the fold's counter
splits off the initial value. -/
lemma pairFold_snd {α : Type} (F : RunState × Nat → α → RunState × Nat)
    (hF1 : ∀ q a, (F q a).1 = (F (q.1, 0) a).1)
    (hF2 : ∀ q a, (F q a).2 = q.2 + (F (q.1, 0) a).2) :
    ∀ (l : List α) (q : RunState × Nat),
      (l.foldl F q).2 = q.2 + (l.foldl F (q.1, 0)).2 := by
  intro l
  induction l with
  | nil => intro q; simp
  | cons a l ih =>
    intro q
    simp only [List.foldl_cons]
    rw [ih (F q a), ih (F (q.1, 0) a), hF2 q a, hF1 q a]
    omega

lemma stepCount_fst_law (g : Nat) (ch : ChannelCfg) :
    ∀ (q : RunState × Nat) (m : Msg),
      (stepCount g ch q m).1 = stepMessage ch q.1 m :=
  fun _ _ => rfl

lemma stepCount_snd_law (g : Nat) (ch : ChannelCfg) :
    ∀ (q : RunState × Nat) (m : Msg),
      (stepCount g ch q m).2 = q.2 + (stepCount g ch (q.1, 0) m).2 := by
  intro q m
  simp only [stepCount]
  omega

lemma runChannelCount_fst (g : Nat) (ch : ChannelCfg) (q : RunState × Nat) :
    (runChannelCount g ch q).1 = runChannel ch q.1 :=
  pairFold_fst (stepCount g ch) (stepMessage ch)
    (stepCount_fst_law g ch) ch.messages q

lemma runChannelCount_snd (g : Nat) (ch : ChannelCfg) (q : RunState × Nat) :
    (runChannelCount g ch q).2 = q.2 + (runChannelCount g ch (q.1, 0)).2 :=
  pairFold_snd (stepCount g ch)
    (fun q a => by rw [stepCount_fst_law, stepCount_fst_law])
    (stepCount_snd_law g ch) ch.messages q

/-- Channel-level invariant: starting any channel fold with counter 0, the
group-`g` album-emission count is 0, or it is 1 and `g` was not yet
processed at entry; and as soon as `g` was processed at entry or an emission
happened, `g` is in the processed set at exit. -/
lemma chanInv (g : Nat) (ch : ChannelCfg) :
    ∀ (msgs : List Msg) (st : RunState),
      ((msgs.foldl (stepCount g ch) (st, 0)).2 = 0 ∨
        ((msgs.foldl (stepCount g ch) (st, 0)).2 = 1 ∧
          g ∉ st.processedGroups)) ∧
      ((g ∈ st.processedGroups ∨
          1 ≤ (msgs.foldl (stepCount g ch) (st, 0)).2) →
        g ∈ (msgs.foldl (stepCount g ch) (st, 0)).1.processedGroups) := by
  intro msgs
  induction msgs with
  | nil =>
    intro st
    refine ⟨Or.inl rfl, ?_⟩
    rintro (h | h)
    · exact h
    · simp at h
  | cons m rest ih =>
    intro st
    by_cases hem : emitsAlbumFor ch st m g
    · simp only [List.foldl_cons, stepCount, if_pos hem]
      have h5 : g ∉ st.processedGroups := hem.2.2.2.2.1
      have hst' : g ∈ (stepMessage ch st m).processedGroups :=
        stepMessage_pg_of_emits ch st m g hem
      have hC := ih (stepMessage ch st m)
      have hC0 : (rest.foldl (stepCount g ch) (stepMessage ch st m, 0)).2 = 0 := by
        rcases hC.1 with h | ⟨-, hn⟩
        · exact h
        · exact absurd hst' hn
      have hsnd := pairFold_snd (stepCount g ch)
        (fun q a => by rw [stepCount_fst_law, stepCount_fst_law])
        (stepCount_snd_law g ch) rest (stepMessage ch st m, 0 + 1)
      have hfst := pairFold_fst (stepCount g ch) (stepMessage ch)
        (stepCount_fst_law g ch) rest (stepMessage ch st m, 0 + 1)
      dsimp only at hsnd hfst
      constructor
      · right
        refine ⟨?_, h5⟩
        rw [hsnd, hC0]
      · intro _
        rw [hfst]
        have := hC.2 (Or.inl hst')
        rw [pairFold_fst (stepCount g ch) (stepMessage ch)
          (stepCount_fst_law g ch) rest (stepMessage ch st m, 0)] at this
        exact this
    · simp only [List.foldl_cons, stepCount, if_neg hem]
      have hC := ih (stepMessage ch st m)
      have hsnd := pairFold_snd (stepCount g ch)
        (fun q a => by rw [stepCount_fst_law, stepCount_fst_law])
        (stepCount_snd_law g ch) rest (stepMessage ch st m, 0 + 0)
      have hfst := pairFold_fst (stepCount g ch) (stepMessage ch)
        (stepCount_fst_law g ch) rest (stepMessage ch st m, 0 + 0)
      dsimp only at hsnd hfst
      have hfst0 := pairFold_fst (stepCount g ch) (stepMessage ch)
        (stepCount_fst_law g ch) rest (stepMessage ch st m, 0)
      dsimp only at hfst0
      constructor
      · rw [hsnd]
        rcases hC.1 with h | ⟨h1c, hn⟩
        · left; omega
        · right
          refine ⟨by omega, ?_⟩
          intro hst
          exact hn (stepMessage_pg_mono ch st m g hst)
      · intro hpm
        rw [hfst]
        rw [hsnd] at hpm
        rcases hpm with hst | hcnt
        · have := hC.2 (Or.inl (stepMessage_pg_mono ch st m g hst))
          rw [hfst0] at this
          exact this
        · have := hC.2 (Or.inr (by omega))
          rw [hfst0] at this
          exact this

lemma runChannel_pg_mono (g : Nat) (ch : ChannelCfg) (st : RunState)
    (h : g ∈ st.processedGroups) :
    g ∈ (runChannel ch st).processedGroups := by
  have := (chanInv g ch ch.messages st).2 (Or.inl h)
  rw [pairFold_fst (stepCount g ch) (stepMessage ch)
    (stepCount_fst_law g ch) ch.messages (st, 0)] at this
  exact this

/-- Run-level invariant: over any list of channels, with the shared state
threaded through, the group-`g` album-emission count is at most one. -/
lemma runInv (g : Nat) :
    ∀ (chs : List ChannelCfg) (st : RunState),
      ((chs.foldl (fun q ch => runChannelCount g ch q) (st, 0)).2 = 0 ∨
        ((chs.foldl (fun q ch => runChannelCount g ch q) (st, 0)).2 = 1 ∧
          g ∉ st.processedGroups)) ∧
      ((g ∈ st.processedGroups ∨
          1 ≤ (chs.foldl (fun q ch => runChannelCount g ch q) (st, 0)).2) →
        g ∈ (chs.foldl (fun q ch => runChannelCount g ch q)
          (st, 0)).1.processedGroups) := by
  intro chs
  induction chs with
  | nil =>
    intro st
    refine ⟨Or.inl rfl, ?_⟩
    rintro (h | h)
    · exact h
    · simp at h
  | cons ch rest ih =>
    intro st
    simp only [List.foldl_cons]
    have hCH := chanInv g ch ch.messages st
    have hefst : (runChannelCount g ch (st, 0)).1 = runChannel ch st :=
      runChannelCount_fst g ch (st, 0)
    have hfst := pairFold_fst (fun q ch => runChannelCount g ch q)
      (fun st ch => runChannel ch st)
      (fun q a => runChannelCount_fst g a q) rest (runChannelCount g ch (st, 0))
    have hsnd := pairFold_snd (fun q ch => runChannelCount g ch q)
      (fun q a => by rw [runChannelCount_fst, runChannelCount_fst])
      (fun q a => runChannelCount_snd g a q) rest (runChannelCount g ch (st, 0))
    rw [hefst] at hfst hsnd
    have ih1 := ih (runChannel ch st)
    have hrfst := pairFold_fst (fun q ch => runChannelCount g ch q)
      (fun st ch => runChannel ch st)
      (fun q a => runChannelCount_fst g a q) rest (runChannel ch st, 0)
    dsimp only at hrfst
    constructor
    · rw [hsnd]
      rcases hCH.1 with he0 | ⟨he1, hnp⟩
      · have : (runChannelCount g ch (st, 0)).2 = 0 := he0
        rcases ih1.1 with h | ⟨h1c, hn⟩
        · left; omega
        · right
          refine ⟨by omega, ?_⟩
          intro hst
          exact hn (runChannel_pg_mono g ch st hst)
      · have he1' : (runChannelCount g ch (st, 0)).2 = 1 := he1
        have hin : g ∈ (runChannel ch st).processedGroups := by
          have := hCH.2 (Or.inr (by omega))
          rw [pairFold_fst (stepCount g ch) (stepMessage ch)
            (stepCount_fst_law g ch) ch.messages (st, 0)] at this
          exact this
        have hC0 : (rest.foldl (fun q ch => runChannelCount g ch q)
            (runChannel ch st, 0)).2 = 0 := by
          rcases ih1.1 with h | ⟨-, hn⟩
          · exact h
          · exact absurd hin hn
        right
        exact ⟨by omega, hnp⟩
    · intro hpm
      rw [hfst]
      rw [hsnd] at hpm
      rcases hpm with hst | hcnt
      · have := ih1.2 (Or.inl (runChannel_pg_mono g ch st hst))
        rw [hrfst] at this
        exact this
      · by_cases hc1 : 1 ≤ (rest.foldl (fun q ch => runChannelCount g ch q)
            (runChannel ch st, 0)).2
        · have := ih1.2 (Or.inr hc1)
          rw [hrfst] at this
          exact this
        · have hbridge : (runChannelCount g ch (st, 0)).2 =
              (List.foldl (stepCount g ch) (st, 0) ch.messages).2 := rfl
          have hin : g ∈ (runChannel ch st).processedGroups := by
            have := hCH.2 (Or.inr (by omega))
            rw [pairFold_fst (stepCount g ch) (stepMessage ch)
              (stepCount_fst_law g ch) ch.messages (st, 0)] at this
            exact this
          have := ih1.2 (Or.inl hin)
          rw [hrfst] at this
          exact this

/-- C4: per run, at most one album payload is emitted for any group id: the
instrumented run — whose state component coincides with the actual run —
counts at most one group-`g` album emission across all channels and all
messages. -/
theorem c4_at_most_one_album_per_group (g : Nat) (chs : List ChannelCfg) :
    (runAllCount g chs).1 = runAll chs ∧ (runAllCount g chs).2 ≤ 1 := by
  constructor
  · exact pairFold_fst (fun q ch => runChannelCount g ch q)
      (fun st ch => runChannel ch st)
      (fun q a => runChannelCount_fst g a q) chs
      ({ processedGroups := [], payloads := [] }, 0)
  · have := (runInv g chs { processedGroups := [], payloads := [] }).1
    rcases this with h | ⟨h, -⟩ <;>
      simp only [runAllCount] <;> omega

/-- C10: the processed-groups set is one per run and shared across channels:
a message of any (later) channel whose group id is already in the
processed-groups set accumulated by a run over earlier channels is skipped
outright — the step is the identity on the run state, contributing no
payload. -/
theorem c10_groups_shared_across_channels (chs : List ChannelCfg)
    (ch : ChannelCfg) (msg : Msg) (g : Nat)
    (hg : msg.groupedId = some g)
    (hmem : g ∈ (runAll chs).processedGroups) :
    stepMessage ch (runAll chs) msg = runAll chs :=
  stepMessage_skip_processed ch (runAll chs) msg g hg hmem

/-- C10, witness: after running channel `chG1` (which processes group 7),
the grouped message `mG2` of the different channel `chG2` is a no-op. -/
theorem c10_groups_shared_across_channels_witness :
    stepMessage chG2 (runAll [chG1]) mG2 = runAll [chG1] :=
  c10_groups_shared_across_channels [chG1] chG2 mG2 7 rfl (by decide)

end PhBrandDailySync
